import Mathlib

/-!
Verification of the pharmacy-simulation front-end (aryamedanna).

We shallowly embed the pure computational core of the program:
the fence-stripping JSON helper, the lab-result and physical-exam
text parsers, the specialty picker, the hint-budget and
notification-counter state updates, the diagnosis-correctness
computation, and the validation logic of the Gemini service
wrappers (modelled as functions of the upstream response text).

Strings are modelled as lists of characters (`Str`); JavaScript
string primitives (`trim`, `split`, `indexOf`, regex matching on
the concrete patterns the source uses) are translated explicitly.
-/

namespace Medanna

/-- JavaScript strings are modelled as lists of characters. -/
abbrev Str := List Char

/-- Convert a Lean string literal to the character-list model. -/
def toChars (s : String) : Str := s.data

/-- Model of JavaScript whitespace (the characters relevant to
`String.prototype.trim` and `\s` on the texts in this code base). -/
def isWS (c : Char) : Bool :=
  c = ' ' || c = '\n' || c = '\t' || c = '\r' || c = '\x0b' || c = '\x0c'

/-- Model of `String.prototype.trim`: drop leading and trailing whitespace. -/
def jsTrim (s : Str) : Str :=
  ((s.dropWhile isWS).reverse.dropWhile isWS).reverse

/-- The backtick character (code point 96). -/
def tick : Char := Char.ofNat 96

/-- Does the list start with three backticks? -/
def isTicks (l : Str) : Bool :=
  match l with
  | a :: b :: c :: _ => a = tick && b = tick && c = tick
  | _ => false

/-- Does the list start with three backticks followed by "json"? -/
def isTicksJson (l : Str) : Bool :=
  match l with
  | a :: b :: c :: d :: e :: f :: g :: _ =>
      a = tick && b = tick && c = tick && d = 'j' && e = 's' && f = 'o' && g = 'n'
  | _ => false

/-- Does the list start with three backticks, "json", and a newline? -/
def isTicksJsonNl (l : Str) : Bool :=
  match l with
  | a :: b :: c :: d :: e :: f :: g :: h :: _ =>
      a = tick && b = tick && c = tick && d = 'j' && e = 's' && f = 'o' && g = 'n' && h = '\n'
  | _ => false

/-- Model of `jsonString.replace(/```json\n?|```/g, '')` from `safeJSONParse`:
scan left to right; at each position first try to remove a literal
"```json" with an optional following newline, then a bare "```";
otherwise keep the character. -/
def stripFences : Str → Str
  | [] => []
  | c :: cs =>
      if isTicksJsonNl (c :: cs) then
        match cs with
        | _ :: _ :: _ :: _ :: _ :: _ :: _ :: rest => stripFences rest
        | _ => []
      else if isTicksJson (c :: cs) then
        match cs with
        | _ :: _ :: _ :: _ :: _ :: _ :: rest => stripFences rest
        | _ => []
      else if isTicks (c :: cs) then
        match cs with
        | _ :: _ :: rest => stripFences rest
        | _ => []
      else c :: stripFences cs

/-! ## JSON values
A model of the JSON fragment exchanged with the model backend:
`JSON.stringify` and `JSON.parse` are JavaScript builtins, modelled
here by an executable printer and parser over this value type
(numbers are modelled as integers; strings over arbitrary characters
with the usual quote/backslash escapes). -/
mutual

inductive Json where
  | null : Json
  | bool (b : Bool) : Json
  | num (n : Int) : Json
  | str (s : Str) : Json
  | arr (elems : JsonList) : Json
  | obj (members : JsonMembers) : Json
deriving DecidableEq

inductive JsonList where
  | nil : JsonList
  | cons (head : Json) (tail : JsonList) : JsonList
deriving DecidableEq

inductive JsonMembers where
  | nil : JsonMembers
  | cons (key : Str) (val : Json) (tail : JsonMembers) : JsonMembers
deriving DecidableEq

end

/-- Decimal digit to character. -/
def digitChar (d : Nat) : Char :=
  match d with
  | 0 => '0' | 1 => '1' | 2 => '2' | 3 => '3' | 4 => '4'
  | 5 => '5' | 6 => '6' | 7 => '7' | 8 => '8' | _ => '9'

/-- Character to decimal digit value. -/
def charToDigit (c : Char) : Nat := c.toNat - 48

/-- Decimal digits of `n`, least significant first (fuelled, structural). -/
def natDigitsAux : Nat → Nat → List Nat
  | 0, _ => []
  | _ + 1, 0 => []
  | f + 1, n => (n % 10) :: natDigitsAux f (n / 10)

/-- Decimal digits of `n`, least significant first. -/
def natDigits (n : Nat) : List Nat := natDigitsAux n n

/-- Value of a least-significant-first digit list. -/
def ofDigitsLSF : List Nat → Nat
  | [] => 0
  | d :: ds => d + 10 * ofDigitsLSF ds

/-- Decimal notation of a natural number. -/
def natToChars (n : Nat) : Str :=
  if n = 0 then ['0'] else ((natDigits n).reverse.map digitChar)

/-- Decimal notation of an integer (model of JS number printing on integers). -/
def intToChars (n : Int) : Str :=
  if n < 0 then '-' :: natToChars n.natAbs else natToChars n.natAbs

/-- JSON string escaping of one character (model of `JSON.stringify`). -/
def escChar (c : Char) : Str :=
  if c = '"' then ['\\', '"']
  else if c = '\\' then ['\\', '\\']
  else if c = '\n' then ['\\', 'n']
  else if c = '\t' then ['\\', 't']
  else if c = '\r' then ['\\', 'r']
  else [c]

/-- JSON string escaping. -/
def escapeStr (s : Str) : Str := s.foldr (fun c acc => escChar c ++ acc) []

mutual

/-- Model of `JSON.stringify` on the embedded JSON fragment. -/
def stringify : Json → Str
  | .null => toChars ("null")
  | .bool true => toChars ("true")
  | .bool false => toChars ("false")
  | .num n => intToChars n
  | .str s => '"' :: escapeStr s ++ ['"']
  | .arr .nil => ['[', ']']
  | .arr (.cons x xs) => '[' :: stringifyElems (.cons x xs) ++ [']']
  | .obj .nil => ['{', '}']
  | .obj (.cons k v ms) => '{' :: stringifyMembers (.cons k v ms) ++ ['}']

/-- Comma-separated serialization of array elements. -/
def stringifyElems : JsonList → Str
  | .nil => []
  | .cons x .nil => stringify x
  | .cons x (.cons y ys) => stringify x ++ ',' :: stringifyElems (.cons y ys)

/-- Comma-separated serialization of object members. -/
def stringifyMembers : JsonMembers → Str
  | .nil => []
  | .cons k v .nil => ('"' :: escapeStr k ++ ['"']) ++ ':' :: stringify v
  | .cons k v (.cons k2 v2 ms) =>
      (('"' :: escapeStr k ++ ['"']) ++ ':' :: stringify v) ++
        ',' :: stringifyMembers (.cons k2 v2 ms)

end

/-- Inverse of `escChar` on escape codes. -/
def unescChar (c : Char) : Option Char :=
  if c = '"' then some '"'
  else if c = '\\' then some '\\'
  else if c = 'n' then some '\n'
  else if c = 't' then some '\t'
  else if c = 'r' then some '\r'
  else none

/-- Parse the body of a JSON string literal up to and including the
closing quote; returns the decoded content and the remaining input. -/
def parseStrAux : Str → Option (Str × Str)
  | [] => none
  | c :: rest =>
      if c = '"' then some ([], rest)
      else if c = '\\' then
        match rest with
        | [] => none
        | e :: rest2 =>
            match unescChar e with
            | none => none
            | some u =>
                match parseStrAux rest2 with
                | some (s, r) => some (u :: s, r)
                | none => none
      else
        match parseStrAux rest with
        | some (s, r) => some (c :: s, r)
        | none => none

/-- Longest prefix of decimal digits (most significant first) and the rest. -/
def parseDigits : Str → (List Nat × Str)
  | [] => ([], [])
  | c :: rest =>
      if c.isDigit then
        let p := parseDigits rest
        (charToDigit c :: p.1, p.2)
      else ([], c :: rest)

/-- Expect a literal character sequence; return the remaining input. -/
def dropLit : Str → Str → Option Str
  | [], l => some l
  | _ :: _, [] => none
  | c :: cs, d :: ds => if d = c then dropLit cs ds else none

/-- Value of a most-significant-first digit list. -/
def digitsVal (ds : List Nat) : Nat := ds.foldl (fun a d => a * 10 + d) 0

mutual

/-- Fuelled recursive-descent JSON value parser (model of `JSON.parse`
on whitespace-free documents). -/
def parseVal : Nat → Str → Option (Json × Str)
  | 0, _ => none
  | f + 1, l =>
      match l with
      | [] => none
      | c :: cs =>
          if c = 'n' then
            match dropLit (['u', 'l', 'l']) cs with
            | some r => some (.null, r)
            | none => none
          else if c = 't' then
            match dropLit (['r', 'u', 'e']) cs with
            | some r => some (.bool true, r)
            | none => none
          else if c = 'f' then
            match dropLit (['a', 'l', 's', 'e']) cs with
            | some r => some (.bool false, r)
            | none => none
          else if c = '"' then
            match parseStrAux cs with
            | some (s, r) => some (.str s, r)
            | none => none
          else if c = '[' then
            match cs with
            | [] => none
            | d :: cs2 =>
                if d = ']' then some (.arr .nil, cs2)
                else
                  match parseElems f (d :: cs2) with
                  | some (xs, r) => some (.arr xs, r)
                  | none => none
          else if c = '{' then
            match cs with
            | [] => none
            | d :: cs2 =>
                if d = '}' then some (.obj .nil, cs2)
                else
                  match parseMembers f (d :: cs2) with
                  | some (ms, r) => some (.obj ms, r)
                  | none => none
          else if c = '-' then
            match parseDigits cs with
            | ([], _) => none
            | (d :: ds, r) => some (.num (-(Int.ofNat (digitsVal (d :: ds)))), r)
          else if c.isDigit then
            match parseDigits (c :: cs) with
            | ([], _) => none
            | (d :: ds, r) => some (.num (Int.ofNat (digitsVal (d :: ds))), r)
          else none

/-- Parse one or more comma-separated array elements up to and
including the closing bracket. -/
def parseElems : Nat → Str → Option (JsonList × Str)
  | 0, _ => none
  | f + 1, l =>
      match parseVal f l with
      | none => none
      | some (x, r) =>
          match r with
          | [] => none
          | c :: r2 =>
              if c = ',' then
                match parseElems f r2 with
                | some (xs, r3) => some (.cons x xs, r3)
                | none => none
              else if c = ']' then some (.cons x .nil, r2)
              else none

/-- Parse one or more comma-separated object members up to and
including the closing brace. -/
def parseMembers : Nat → Str → Option (JsonMembers × Str)
  | 0, _ => none
  | f + 1, l =>
      match l with
      | [] => none
      | c0 :: cs =>
          if c0 = '"' then
            match parseStrAux cs with
            | none => none
            | some (k, r) =>
                match r with
                | [] => none
                | c1 :: r2 =>
                    if c1 = ':' then
                      match parseVal f r2 with
                      | none => none
                      | some (v, r3) =>
                          match r3 with
                          | [] => none
                          | c2 :: r4 =>
                              if c2 = ',' then
                                match parseMembers f r4 with
                                | some (ms, r5) => some (.cons k v ms, r5)
                                | none => none
                              else if c2 = '}' then some (.cons k v .nil, r4)
                              else none
                    else none
          else none

end

/-- Model of `JSON.parse`: parse a complete document (no trailing input). -/
def parseJson (l : Str) : Option Json :=
  match parseVal (l.length + 1) l with
  | some (x, []) => some x
  | _ => none

/-- Is the head of the input not a decimal digit (or the input empty)? -/
def headNotDigit : Str → Bool
  | [] => true
  | c :: _ => !c.isDigit

/-! ### Fuel bounds -/
mutual

/-- Parser fuel needed for a value. -/
def jfuel : Json → Nat
  | .null => 1
  | .bool _ => 1
  | .num _ => 1
  | .str _ => 1
  | .arr .nil => 1
  | .arr (.cons x xs) => 1 + jfuelElems (.cons x xs)
  | .obj .nil => 1
  | .obj (.cons k v ms) => 1 + jfuelMembers (.cons k v ms)

/-- Parser fuel needed for array elements. -/
def jfuelElems : JsonList → Nat
  | .nil => 0
  | .cons x xs => 1 + jfuel x + jfuelElems xs

/-- Parser fuel needed for object members. -/
def jfuelMembers : JsonMembers → Nat
  | .nil => 0
  | .cons _ v ms => 1 + jfuel v + jfuelMembers ms

end

/-- Characters that can begin a serialized JSON value. -/
def startChar (c : Char) : Bool :=
  c = 'n' || c = 't' || c = 'f' || c = '"' || c = '[' || c = '{' || c = '-' || c.isDigit

/-! ### Fence stripping and trimming -/
/-- No position of the list starts three consecutive backticks. -/
def noTicks : Str → Bool
  | [] => true
  | c :: cs => !isTicks (c :: cs) && noTicks cs

/-- Wrap a payload in triple-backtick fences with a "json" language tag. -/
def wrapFence (s : Str) : Str :=
  tick :: tick :: tick :: 'j' :: 's' :: 'o' :: 'n' :: '\n' ::
    (s ++ '\n' :: tick :: tick :: tick :: [])

/-- Model of `safeJSONParse` from the Gemini service module: strip
code fences, trim, parse; on parse failure return the fallback. -/
def safeJSONParse (jsonString : Str) (fallback : Json) : Json :=
  match parseJson (jsTrim (stripFences jsonString)) with
  | some v => v
  | none => fallback

/-! ## JavaScript field access on parsed JSON documents -/
/-- Look up an object member; a later duplicate key overrides an
earlier one, as in `JSON.parse`. -/
def memFind : JsonMembers → Str → Option Json
  | .nil, _ => none
  | .cons k v ms, key =>
      match memFind ms key with
      | some r => some r
      | none => if k = key then some v else none

/-- Model of JavaScript property access `doc[key]` on a parsed value
(`none` models `undefined`). -/
def jGet : Json → Str → Option Json
  | .obj ms, key => memFind ms key
  | _, _ => none

/-- JavaScript truthiness of a JSON value. -/
def truthy : Json → Bool
  | .null => false
  | .bool b => b
  | .num n => !(n = 0)
  | .str s => !(s = [])
  | .arr _ => true
  | .obj _ => true

/-- Truthiness of `doc[key]` (`undefined` is falsy). -/
def fieldTruthy (j : Json) (key : Str) : Bool :=
  match jGet j key with
  | some v => truthy v
  | none => false

/-- Model of `doc[key].length === 0`: only arrays and strings have a
numeric `length`; on any other value the comparison is false. -/
def fieldLenZero (j : Json) (key : Str) : Bool :=
  match jGet j key with
  | some (.arr .nil) => true
  | some (.str []) => true
  | _ => false

/-- Number of elements of an embedded JSON array. -/
def jlLength : JsonList → Nat
  | .nil => 0
  | .cons _ xs => jlLength xs + 1

/-! ## The Gemini service wrappers (src/services/geminiService.ts)
`generateCase` and `generateDebrief` are modelled as functions of the
upstream call result: either the upstream promise rejected, or it
resolved with a response text.  The network call itself and the prompt
construction have no bearing on the claims. -/
/-- Result of the upstream `ai.models.generateContent` call. -/
inductive UpstreamResult where
  | failure : UpstreamResult
  | success (text : Str) : UpstreamResult
deriving DecidableEq

/-- Errors `generateCase` can produce: the upstream rejection is
re-raised as-is; every parse/validation problem is converted to the
single invalid-case `Error`. -/
inductive GenError where
  | upstream : GenError
  | invalidCase : GenError
deriving DecidableEq

/-- The `title` key. -/
def titleKey : Str := toChars ("title")

/-- The `drugRelatedProblems` key. -/
def drpKey : Str := toChars ("drugRelatedProblems")

/-- Model of `generateCase` from geminiService.ts, as a function of
the upstream result: trim and `JSON.parse` the response text, throw on
parse failure, throw when `!caseData.title || !caseData.drugRelatedProblems
|| caseData.drugRelatedProblems.length === 0`, otherwise return the
parsed document. -/
def generateCase : UpstreamResult → Except GenError Json
  | .failure => .error .upstream
  | .success t =>
      match parseJson (jsTrim t) with
      | none => .error .invalidCase
      | some caseData =>
          if !(fieldTruthy caseData titleKey) || !(fieldTruthy caseData drpKey) ||
              fieldLenZero caseData drpKey then
            .error .invalidCase
          else
            .ok caseData

/-- The top-level keys the `PharmacyCase` interface (and the response
schema's `required` list) demand. -/
def caseRequiredKeys : List Str :=
  [toChars ("title"), toChars ("patientProfile"), toChars ("tags"),
   toChars ("chiefComplaint"), toChars ("historyOfPresentIllness"),
   toChars ("medicationHistory"), toChars ("physicalExam"), toChars ("labResults"),
   toChars ("drugRelatedProblems"), toChars ("mcqs"), toChars ("correctProblemExplanation")]

/-- Does the document carry every top-level `PharmacyCase` field? -/
def fullyStructured (j : Json) : Bool :=
  caseRequiredKeys.all (fun k => (jGet j k).isSome)

/-- The `drugRelatedProblems` array of a case document, when present. -/
def drpField (j : Json) : Option JsonList :=
  match jGet j drpKey with
  | some (.arr l) => some l
  | _ => none

/-- How many entries of the array have a truthy `isCorrect` field. -/
def countCorrect : JsonList → Nat
  | .nil => 0
  | .cons x xs =>
      (if fieldTruthy x (toChars ("isCorrect")) then 1 else 0) + countCorrect xs

/-- Errors `generateDebrief` can produce. -/
inductive DebriefErr where
  | upstream : DebriefErr
  | invalidFormat : DebriefErr
deriving DecidableEq

/-- Model of `generateDebrief` from geminiService.ts, as a function of
the upstream result: trim and `JSON.parse` the response text, throw on
parse failure, throw when `!debriefData.stepwiseReasoning ||
!debriefData.learningPearls`, otherwise return the parsed document. -/
def generateDebrief : UpstreamResult → Except DebriefErr Json
  | .failure => .error .upstream
  | .success t =>
      match parseJson (jsTrim t) with
      | none => .error .invalidFormat
      | some d =>
          if !(fieldTruthy d (toChars ("stepwiseReasoning"))) ||
              !(fieldTruthy d (toChars ("learningPearls"))) then
            .error .invalidFormat
          else
            .ok d

/-- The empty-content fallback object described by the spec (the value
the dead variant of the service builds: a generic reasoning message and
empty pearls/citations). -/
def debriefFallback : Json :=
  Json.obj (.cons (toChars ("reasoning")) (Json.str (toChars ("Could not generate debrief.")))
    (.cons (toChars ("learningPearls")) (Json.arr .nil)
    (.cons (toChars ("citations")) (Json.arr .nil) .nil)))

/-- The user-facing message `handleGenerateDebrief` renders for a
debrief failure, per error kind. -/
def debriefErrMessage (e : DebriefErr) : Str :=
  toChars ("Failed to generate debrief. ") ++
    (match e with
     | .invalidFormat => toChars ("The AI model returned an invalid debrief format.")
     | .upstream => toChars ("An unknown error occurred."))

/-- The debrief-related slice of the application state in index.tsx. -/
structure DebriefState where
  debriefData : Option Json
  debriefError : Option Str
  isGeneratingDebrief : Bool
deriving DecidableEq

/-- Model of `handleGenerateDebrief` from index.tsx: set the loading
flag and clear the error, await `generateDebrief`, store the result on
success or a rendered error message on failure, clear the loading flag. -/
def handleGenerateDebrief (st : DebriefState) (res : Except DebriefErr Json) : DebriefState :=
  match res with
  | .ok d => { debriefData := some d, debriefError := none, isGeneratingDebrief := false }
  | .error e =>
      { debriefData := st.debriefData, debriefError := some (debriefErrMessage e),
        isGeneratingDebrief := false }

/-! ## The specialty picker (pickPharmacyAreaForCase) -/
/-- The four pharmacy practice areas. -/
def validSpecialties : List Str :=
  [toChars ("Community Pharmacy"), toChars ("Hospital Pharmacy"),
   toChars ("Clinical Pharmacy"), toChars ("Industrial Pharmacy")]

/-- Model of `pickPharmacyAreaForCase` as a function of the model's
response text: trim, accept an exact member of the enumeration,
otherwise fall back to "Community Pharmacy". -/
def pickPharmacyAreaForCase (responseText : Str) : Str :=
  let specialty := jsTrim responseText
  if specialty ∈ validSpecialties then specialty else toChars ("Community Pharmacy")

/-! ## The investigation catalog and lab-result parser (index.tsx) -/
/-- `ALL_INVESTIGATIONS` from index.tsx: category name to test names. -/
def ALL_INVESTIGATIONS : List (Str × List Str) :=
  [(toChars ("Bedside Tests"),
    [toChars ("ECG"), toChars ("Blood Glucose"), toChars ("Urine Dipstick")]),
   (toChars ("Basic Labs"),
    [toChars ("CBC"), toChars ("CMP"), toChars ("ESR"), toChars ("CRP"), toChars ("TSH"),
     toChars ("Lipid Profile"), toChars ("LFT"), toChars ("RFT"), toChars ("ABG")]),
   (toChars ("Advanced Labs"),
    [toChars ("Troponin"), toChars ("BNP"), toChars ("D-dimer"),
     toChars ("Coagulation Profile"), toChars ("Blood Culture"), toChars ("HbA1c")]),
   (toChars ("Imaging"),
    [toChars ("Chest X-Ray"), toChars ("CT Head"), toChars ("CT Chest"),
     toChars ("CT Abdomen"), toChars ("Abdominal Ultrasound"), toChars ("Echocardiogram")])]

/-- Every test name the UI can order. -/
def allInvestigationNames : List Str :=
  (ALL_INVESTIGATIONS.map Prod.snd).flatten

/-- `ALL_INVESTIGATIONS['Imaging']`. -/
def imagingTests : List Str :=
  [toChars ("Chest X-Ray"), toChars ("CT Head"), toChars ("CT Chest"),
   toChars ("CT Abdomen"), toChars ("Abdominal Ultrasound"), toChars ("Echocardiogram")]

/-- The tests `parseComplexLabResult` renders as a parameter grid. -/
def complexValueTests : List Str :=
  [toChars ("CBC"), toChars ("CMP"), toChars ("Lipid Profile"), toChars ("LFT"),
   toChars ("RFT"), toChars ("Coagulation Profile")]

/-- Case-insensitive literal-prefix match; returns the remainder. -/
def stripPrefixCI : Str → Str → Option Str
  | [], l => some l
  | _ :: _, [] => none
  | p :: ps, c :: cs => if c.toLower = p.toLower then stripPrefixCI ps cs else none

/-- Try to match the regex `name\s*:\s*` at the start of the input
(case-insensitively); on success return the input position where the
`([^\r\n]*)` capture begins. -/
def matchNameColon (name : Str) (l : Str) : Option Str :=
  match stripPrefixCI name l with
  | none => none
  | some r1 =>
      match r1.dropWhile isWS with
      | ':' :: r3 => some (r3.dropWhile isWS)
      | _ => none

/-- Leftmost match of `name\s*:\s*([^\r\n]*)` in the input: the
position-by-position scan of the regex engine. -/
def findMatch (name : Str) : Str → Option Str
  | [] => matchNameColon name []
  | c :: t =>
      match matchNameColon name (c :: t) with
      | some cap => some cap
      | none => findMatch name t

/-- `'Result not available in this case.'`. -/
def notAvailableMsg : Str := toChars ("Result not available in this case.")

/-- Split a string at every occurrence of a separator character
(model of JavaScript `String.prototype.split` with a one-character
separator). -/
def splitOnAux (sep : Char) : Str → Str → List Str
  | [], acc => [acc.reverse]
  | c :: cs, acc =>
      if c = sep then acc.reverse :: splitOnAux sep cs []
      else splitOnAux sep cs (c :: acc)

/-- JavaScript `s.split(sep)` for a single-character separator. -/
def splitOn (sep : Char) (l : Str) : List Str := splitOnAux sep l []

/-- One entry of a parameter grid: `{name, value}` split at the first
space of a comma-separated part (a part without a space keeps an empty
value). -/
def paramOfPart (part : Str) : Str × Str :=
  if ' ' ∈ part then
    (part.takeWhile (fun c => !(c = ' ')),
     jsTrim ((part.dropWhile (fun c => !(c = ' '))).drop 1))
  else (part, [])

/-- The comma-separated parameter grid of a complex-value result. -/
def paramsOf (resultString : Str) : List (Str × Str) :=
  (splitOn ',' resultString).map (fun p => paramOfPart (jsTrim p))

/-- The three display shapes `parseComplexLabResult` can produce. -/
inductive LabResult where
  | values (params : List (Str × Str)) : LabResult
  | report (text : Str) : LabResult
  | simple (text : Str) : LabResult
deriving DecidableEq

/-- Model of `parseComplexLabResult` from index.tsx: find the first
case-insensitive occurrence of `testName\s*:\s*` in the lab string and
take the rest of that line as the result (trimmed); fall back to the
not-available sentinel; then choose the display shape by test kind. -/
def parseComplexLabResult (testName : Str) (fullLabString : Str) : LabResult :=
  let resultString :=
    match findMatch testName fullLabString with
    | some cap => jsTrim (cap.takeWhile (fun c => !(c = '\r' || c = '\n')))
    | none => notAvailableMsg
  if resultString = notAvailableMsg then .simple resultString
  else if testName ∈ imagingTests then .report resultString
  else if testName ∈ complexValueTests then .values (paramsOf resultString)
  else .simple resultString

/-! ## The hint budget (index.tsx) -/
/-- The transcript message appended when hint generation fails. -/
def hintErrorText : Str := toChars ("Sorry, I couldn't generate a hint right now.")

/-- Observable outcome of one `handleRequestHint` invocation. -/
structure HintStepResult where
  requestIssued : Bool
  newHintCount : Int
  appendedMessage : Option Str
deriving DecidableEq

/-- Model of `handleRequestHint` from index.tsx, as a function of the
guard state and the outcome the hint request would have (`none` models
a rejected `generateHint` call): bail out without a request when there
is no case, the budget is not positive, or a hint is already pending;
on success append the hint and decrement via `updateHintCount`; on
failure append an apology and leave the budget untouched. -/
def handleRequestHint (hasCase : Bool) (hintCount : Int) (isGeneratingHint : Bool)
    (outcome : Option Str) : HintStepResult :=
  if !hasCase || hintCount ≤ 0 || isGeneratingHint then
    { requestIssued := false, newHintCount := hintCount, appendedMessage := none }
  else
    match outcome with
    | some hint =>
        { requestIssued := true, newHintCount := hintCount - 1, appendedMessage := some hint }
    | none =>
        { requestIssued := true, newHintCount := hintCount,
          appendedMessage := some hintErrorText }

/-! ## Problem submission (index.tsx) -/
/-- A drug-related problem entry of a typed `PharmacyCase`. -/
structure DRP where
  problem : Str
  isCorrect : Bool
deriving DecidableEq

/-- `drugRelatedProblems.find(d => d.isCorrect)?.problem`. -/
def correctProblem (drps : List DRP) : Option Str :=
  (drps.find? (fun d => d.isCorrect)).map (fun d => d.problem)

/-- The record `handleFinishCase` builds. -/
structure SimulationResult where
  problemCorrect : Bool
  timeTaken : Nat
  selectedProblem : Str
deriving DecidableEq

/-- Model of `handleFinishCase` from index.tsx: correctness is string
equality between the selected problem and the first entry flagged
correct (`undefined` compares unequal to any string). -/
def handleFinishCase (drps : List DRP) (selectedProblem : Str) (timeTaken : Nat) :
    SimulationResult :=
  { problemCorrect :=
      match correctProblem drps with
      | some p => selectedProblem = p
      | none => false,
    timeTaken := timeTaken,
    selectedProblem := selectedProblem }

/-! ## Physical-exam parsing (ParsedExamDisplay, index.tsx) -/
/-- One parsed exam section. -/
structure ExamSection where
  title : Str
  content : List Str
deriving DecidableEq

/-- The generic section title used when no labelled section exists. -/
def genericExamTitle : Str := toChars ("Examination Findings")

/-- JavaScript `\w`: ASCII letters, digits and underscore. -/
def isWordChar (c : Char) : Bool :=
  ('a' ≤ c && c ≤ 'z') || ('A' ≤ c && c ≤ 'Z') || ('0' ≤ c && c ≤ '9') || c = '_'

/-- A character of the class `[\w\s]`. -/
def isWordOrSpace (c : Char) : Bool := isWordChar c || isWS c

/-- The lookahead `(?=[\w\s]+:\s*)`: the text starts with at least one
`[\w\s]` character and its first character outside that class is a colon. -/
def headerLookahead (l : Str) : Bool :=
  match l with
  | [] => false
  | c :: _ =>
      isWordOrSpace c &&
        (match l.dropWhile isWordOrSpace with
         | ':' :: _ => true
         | _ => false)

/-- Split before every newline whose right context matches the header
lookahead (model of `split(/\n(?=[\w\s]+:\s*)/)`; the newline separator
is consumed). -/
def splitExamAux : Str → Str → List Str
  | [], acc => [acc.reverse]
  | c :: cs, acc =>
      if c = '\n' && headerLookahead cs then acc.reverse :: splitExamAux cs []
      else splitExamAux cs (c :: acc)

/-- Split an exam string into header-delimited segments. -/
def splitExam (l : Str) : List Str := splitExamAux l []

/-- Append a string to the content of the last section. -/
def appendToLast (sections : List ExamSection) (txt : Str) : List ExamSection :=
  match sections with
  | [] => []
  | [s] => [{ s with content := s.content ++ [txt] }]
  | s :: s2 :: rest => s :: appendToLast (s2 :: rest) txt

/-- Process one segment of the exam string (the body of the `forEach`
in `ParsedExamDisplay`): a first line with a colon starts a new titled
section (dropped only when its content is empty); a first line without
a colon appends the whole segment to the previous section, or starts a
generically-titled section when none exists. -/
def examStep (sections : List ExamSection) (part : Str) : List ExamSection :=
  let lines := splitOn '\n' (jsTrim part)
  let titleLine := lines.headD []
  let restLines := lines.tail
  if ':' ∈ titleLine then
    let title := jsTrim (titleLine.takeWhile (fun c => !(c = ':')))
    let firstLineContent := jsTrim ((titleLine.dropWhile (fun c => !(c = ':'))).drop 1)
    let content :=
      ((if firstLineContent = [] then [] else [firstLineContent]) ++
        restLines.map jsTrim).filter (fun s => !(s = []))
    if content = [] then sections else sections ++ [{ title := title, content := content }]
  else
    match sections with
    | [] => [{ title := genericExamTitle, content := [jsTrim part] }]
    | s :: rest => appendToLast (s :: rest) (jsTrim part)

/-- Model of the section parser of `ParsedExamDisplay`: split into
segments, drop blank segments, fold `examStep`, and fall back to one
generic section when nothing was parsed from a non-blank string. -/
def parseExamSections (examString : Str) : List ExamSection :=
  if jsTrim examString = [] then []
  else
    let parts := (splitExam examString).filter (fun p => !(jsTrim p = []))
    let sections := parts.foldl examStep []
    if sections = [] then [{ title := genericExamTitle, content := [jsTrim examString] }]
    else sections

/-- All content strings of a parsed section list. -/
def sectionTexts (sections : List ExamSection) : List Str :=
  (sections.map (fun s => s.content)).flatten

/-! ## Notifications (index.tsx) -/
/-- A notification row (the fields the read-marking logic touches). -/
structure Notification where
  id : Int
  title : Str
  message : Str
  is_read : Bool
deriving DecidableEq

/-- The notification slice of the application state. -/
structure NotifState where
  notifications : List Notification
  unreadCount : Int
deriving DecidableEq

/-- Model of `markNotificationAsRead` from index.tsx: no-op without a
session; otherwise optimistically mark the row read and decrement the
unread counter through `Math.max(0, prev - 1)`, then revert both to
their pre-call snapshots when the remote write fails. -/
def markNotificationAsRead (hasSession : Bool) (st : NotifState) (notificationId : Int)
    (remoteSuccess : Bool) : NotifState :=
  if !hasSession then st
  else
    let optimistic : NotifState :=
      { notifications := st.notifications.map (fun n =>
          if n.id = notificationId then { n with is_read := true } else n),
        unreadCount := max 0 (st.unreadCount - 1) }
    if remoteSuccess then optimistic else st

/-- One recorded invocation of `markNotificationAsRead`:
(session present, notification id, remote success). -/
def markNotificationStep (st : NotifState) (call : Bool × Int × Bool) : NotifState :=
  markNotificationAsRead call.1 st call.2.1 call.2.2

/-- The successful payload of an `Except`, when there is one. -/
def okOf {ε α : Type} : Except ε α → Option α
  | .ok a => some a
  | .error _ => none

instance {ε α : Type} [DecidableEq ε] [DecidableEq α] : DecidableEq (Except ε α) := fun x y =>
  match x, y with
  | .ok a, .ok b =>
      if h : a = b then isTrue (by rw [h])
      else isFalse (fun hc => h (Except.ok.inj hc))
  | .error a, .error b =>
      if h : a = b then isTrue (by rw [h])
      else isFalse (fun hc => h (Except.error.inj hc))
  | .ok _, .error _ => isFalse (fun hc => Except.noConfusion hc)
  | .error _, .ok _ => isFalse (fun hc => Except.noConfusion hc)

/-! ## Lemmas and claim theorems -/

/-! ### Digit printing and parsing lemmas -/
theorem ofDigitsLSF_natDigitsAux : ∀ f n, n ≤ f → ofDigitsLSF (natDigitsAux f n) = n := by
  intro f
  induction f with
  | zero => intro n h; interval_cases n; simp [natDigitsAux, ofDigitsLSF]
  | succ f ih =>
      intro n h
      match n with
      | 0 => simp [natDigitsAux, ofDigitsLSF]
      | m + 1 =>
          have hdiv : (m + 1) / 10 ≤ f := by omega
          simp only [natDigitsAux, ofDigitsLSF, ih _ hdiv]
          omega

theorem natDigitsAux_lt : ∀ f n d, d ∈ natDigitsAux f n → d < 10 := by
  intro f
  induction f with
  | zero => intro n d h; simp [natDigitsAux] at h
  | succ f ih =>
      intro n d h
      match n with
      | 0 => simp [natDigitsAux] at h
      | m + 1 =>
          simp only [natDigitsAux, List.mem_cons] at h
          rcases h with h | h


          · omega
          · exact ih _ _ h

theorem natDigits_ne_nil {n : Nat} (h : 0 < n) : natDigits n ≠ [] := by
  match n, h with
  | m + 1, _ => simp [natDigits, natDigitsAux]

theorem isDigit_digitChar (d : Nat) : (digitChar d).isDigit = true := by
  match d with
  | 0 | 1 | 2 | 3 | 4 | 5 | 6 | 7 | 8 => rfl
  | _ + 9 => rfl

theorem charToDigit_digitChar {d : Nat} (h : d < 10) : charToDigit (digitChar d) = d := by
  interval_cases d <;> rfl

theorem parseDigits_map : ∀ ds rest, (∀ d ∈ ds, d < 10) → headNotDigit rest = true →
    parseDigits (ds.map digitChar ++ rest) = (ds, rest) := by
  intro ds
  induction ds with
  | nil =>
      intro rest _ hr
      match rest with
      | [] => rfl
      | c :: t =>
          simp only [headNotDigit, Bool.not_eq_true'] at hr
          simp [parseDigits, hr]
  | cons d ds ih =>
      intro rest hlt hr
      have hd : d < 10 := hlt d (by simp)
      simp only [List.map_cons, List.cons_append, parseDigits, isDigit_digitChar, if_true,
        List.append_eq]
      rw [ih rest (fun e he => hlt e (by simp [he])) hr]
      simp [charToDigit_digitChar hd]

theorem digitsVal_reverse : ∀ (lsf : List Nat) (a : Nat),
    List.foldl (fun x d => x * 10 + d) a lsf.reverse = a * 10 ^ lsf.length + ofDigitsLSF lsf := by
  intro lsf
  induction lsf with
  | nil => intro a; simp [ofDigitsLSF]
  | cons d ds ih =>
      intro a
      simp only [List.reverse_cons, List.foldl_append, ih, List.foldl_cons, List.foldl_nil,
        ofDigitsLSF, List.length_cons]
      ring

theorem parseDigits_natToChars (n : Nat) (rest : Str) (hr : headNotDigit rest = true) :
    ∃ d ds, parseDigits (natToChars n ++ rest) = (d :: ds, rest) ∧ digitsVal (d :: ds) = n := by
  by_cases h0 : n = 0
  · subst h0
    refine ⟨0, [], ?_, rfl⟩
    have : natToChars 0 = [digitChar 0] := rfl
    rw [this, show [digitChar 0] = [0].map digitChar from rfl,
      parseDigits_map [0] rest (by simp) hr]
  · have hpos : 0 < n := Nat.pos_of_ne_zero h0
    have hne : natDigits n ≠ [] := natDigits_ne_nil hpos
    have hlt : ∀ d ∈ (natDigits n).reverse, d < 10 := by
      intro d hd
      exact natDigitsAux_lt n n d (List.mem_reverse.mp hd)
    have hnc : natToChars n = ((natDigits n).reverse).map digitChar := by
      simp [natToChars, h0]
    obtain ⟨d, ds, hds⟩ := List.exists_cons_of_ne_nil (by simpa using hne :
      (natDigits n).reverse ≠ [])
    refine ⟨d, ds, ?_, ?_⟩
    · rw [hnc, hds, parseDigits_map _ rest (by rw [← hds]; exact hlt) hr]
    · have : digitsVal ((natDigits n).reverse) = n := by
        unfold digitsVal
        rw [digitsVal_reverse]
        simpa using ofDigitsLSF_natDigitsAux n n le_rfl
      rw [← hds]; exact this

/-! ### String escaping lemmas -/
theorem parseStrAux_escape : ∀ s rest, parseStrAux (escapeStr s ++ '"' :: rest) = some (s, rest) := by
  intro s
  induction s with
  | nil =>
      intro rest
      show parseStrAux ([] ++ '"' :: rest) = some ([], rest)
      rw [List.nil_append, parseStrAux.eq_def]
      simp
  | cons c s ih =>
      intro rest
      have hesc : escapeStr (c :: s) = escChar c ++ escapeStr s := by
        simp [escapeStr]
      rw [hesc]
      by_cases h1 : c = '"'
      · subst h1
        simp only [escChar, if_pos rfl, List.cons_append, List.nil_append]
        rw [parseStrAux.eq_def]
        simp [unescChar, ih]
      · by_cases h2 : c = '\\'
        · subst h2
          simp only [escChar, if_neg (by decide : ¬('\\' : Char) = '"'), if_pos rfl,
            List.cons_append, List.nil_append]
          rw [parseStrAux.eq_def]
          simp [unescChar, ih]
        · by_cases h3 : c = '\n'
          · subst h3
            simp only [escChar, if_neg (by decide : ¬('\n' : Char) = '"'),
              if_neg (by decide : ¬('\n' : Char) = '\\'), if_pos rfl,
              List.cons_append, List.nil_append]
            rw [parseStrAux.eq_def]
            simp [unescChar, ih]
          · by_cases h4 : c = '\t'
            · subst h4
              simp only [escChar, if_neg (by decide : ¬('\t' : Char) = '"'),
                if_neg (by decide : ¬('\t' : Char) = '\\'),
                if_neg (by decide : ¬('\t' : Char) = '\n'), if_pos rfl,
                List.cons_append, List.nil_append]
              rw [parseStrAux.eq_def]
              simp [unescChar, ih]
            · by_cases h5 : c = '\r'
              · subst h5
                simp only [escChar, if_neg (by decide : ¬('\r' : Char) = '"'),
                  if_neg (by decide : ¬('\r' : Char) = '\\'),
                  if_neg (by decide : ¬('\r' : Char) = '\n'),
                  if_neg (by decide : ¬('\r' : Char) = '\t'), if_pos rfl,
                  List.cons_append, List.nil_append]
                rw [parseStrAux.eq_def]
                simp [unescChar, ih]
              · simp only [escChar, h1, h2, h3, h4, h5, if_false, List.cons_append,
                  List.nil_append]
                rw [parseStrAux.eq_def]
                simp [h1, h2, ih]

theorem jfuel_pos : ∀ x, 1 ≤ jfuel x := by
  intro x
  cases x with
  | arr xs => cases xs <;> simp [jfuel]
  | obj ms => cases ms <;> simp [jfuel]
  | _ => simp [jfuel]

theorem natToChars_all_digit : ∀ n c, c ∈ natToChars n → c.isDigit = true := by
  intro n c hc
  by_cases h0 : n = 0
  · subst h0
    rw [show natToChars 0 = ['0'] from rfl, List.mem_singleton] at hc
    subst hc; rfl
  · simp only [natToChars, if_neg h0, List.mem_map] at hc
    obtain ⟨d, _, rfl⟩ := hc
    exact isDigit_digitChar d

theorem natToChars_ne_nil (n : Nat) : natToChars n ≠ [] := by
  by_cases h0 : n = 0
  · subst h0; simp [natToChars]
  · have := natDigits_ne_nil (Nat.pos_of_ne_zero h0)
    simp [natToChars, h0, this]

theorem stringify_shape : ∀ x, ∃ c t, stringify x = c :: t ∧ startChar c = true := by
  intro x
  cases x with
  | null => exact ⟨'n', _, rfl, by decide⟩
  | bool b => cases b
              · exact ⟨'f', _, rfl, by decide⟩
              · exact ⟨'t', _, rfl, by decide⟩
  | num n =>
      by_cases hneg : n < 0
      · refine ⟨'-', natToChars n.natAbs, ?_, by decide⟩
        simp [stringify, intToChars, hneg]
      · obtain ⟨c, t, hct⟩ := List.exists_cons_of_ne_nil (natToChars_ne_nil n.natAbs)
        refine ⟨c, t, ?_, ?_⟩
        · simp [stringify, intToChars, hneg, hct]
        · have : c ∈ natToChars n.natAbs := by rw [hct]; simp
          simp [startChar, natToChars_all_digit _ _ this]
  | str s => exact ⟨'"', _, rfl, by decide⟩
  | arr xs => cases xs
              · exact ⟨'[', _, rfl, by decide⟩
              · exact ⟨'[', _, rfl, by decide⟩
  | obj ms => cases ms
              · exact ⟨'{', _, rfl, by decide⟩
              · exact ⟨'{', _, rfl, by decide⟩

theorem stringify_ne_nil (x : Json) : stringify x ≠ [] := by
  obtain ⟨c, t, h, _⟩ := stringify_shape x
  simp [h]

theorem startChar_not_close {c : Char} (h : startChar c = true) :
    ¬ c = ']' ∧ ¬ c = '}' ∧ ¬ c = ',' ∧ ¬ c = ':' := by
  simp only [startChar, Bool.or_eq_true, decide_eq_true_eq] at h
  refine ⟨?_, ?_, ?_, ?_⟩ <;> rintro rfl <;>
    rcases h with h | h | h | h | h | h | h | h <;> revert h <;> decide

theorem stringifyElems_shape (x : Json) (xs : JsonList) :
    ∃ c t, stringifyElems (.cons x xs) = c :: t ∧ startChar c = true := by
  obtain ⟨c, t, hct, hs⟩ := stringify_shape x
  cases xs with
  | nil => exact ⟨c, t, by simp [stringifyElems, hct], hs⟩
  | cons y ys =>
      refine ⟨c, t ++ ',' :: stringifyElems (.cons y ys), ?_, hs⟩
      simp [stringifyElems, hct]

/-! ### Branch lemmas for the parser -/
theorem parseVal_digit (f : Nat) (c : Char) (cs : Str) (hc : c.isDigit = true) :
    parseVal (f + 1) (c :: cs) =
      (match parseDigits (c :: cs) with
       | ([], _) => none
       | (d :: ds, r) => some (Json.num (Int.ofNat (digitsVal (d :: ds))), r)) := by
  have h1 : ¬ c = 'n' := by rintro rfl; exact absurd hc (by decide)
  have h2 : ¬ c = 't' := by rintro rfl; exact absurd hc (by decide)
  have h3 : ¬ c = 'f' := by rintro rfl; exact absurd hc (by decide)
  have h4 : ¬ c = '"' := by rintro rfl; exact absurd hc (by decide)
  have h5 : ¬ c = '[' := by rintro rfl; exact absurd hc (by decide)
  have h6 : ¬ c = '{' := by rintro rfl; exact absurd hc (by decide)
  have h7 : ¬ c = '-' := by rintro rfl; exact absurd hc (by decide)
  simp only [parseVal, h1, h2, h3, h4, h5, h6, h7, if_false, hc, if_true]

theorem parseVal_arrCons (f : Nat) (d : Char) (cs : Str) (hd : ¬ d = ']') :
    parseVal (f + 1) ('[' :: d :: cs) =
      (match parseElems f (d :: cs) with
       | some (xs, r) => some (Json.arr xs, r)
       | none => none) := by
  simp only [parseVal]
  simp [hd]

theorem parseVal_objCons (f : Nat) (d : Char) (cs : Str) (hd : ¬ d = '}') :
    parseVal (f + 1) ('{' :: d :: cs) =
      (match parseMembers f (d :: cs) with
       | some (ms, r) => some (Json.obj ms, r)
       | none => none) := by
  simp only [parseVal]
  simp [hd]

/-! ### The printer-parser round trip -/
theorem parse_print_aux : ∀ f : Nat,
    (∀ x rest, jfuel x ≤ f → headNotDigit rest = true →
      parseVal f (stringify x ++ rest) = some (x, rest)) ∧
    (∀ x xs rest, jfuelElems (.cons x xs) ≤ f →
      parseElems f (stringifyElems (.cons x xs) ++ ']' :: rest) =
        some (JsonList.cons x xs, rest)) ∧
    (∀ k v ms rest, jfuelMembers (.cons k v ms) ≤ f →
      parseMembers f (stringifyMembers (.cons k v ms) ++ '}' :: rest) =
        some (JsonMembers.cons k v ms, rest)) := by
  intro f
  induction f with
  | zero =>
      refine ⟨?_, ?_, ?_⟩
      · intro x rest hf _
        have := jfuel_pos x
        omega
      · intro x xs rest hf
        simp [jfuelElems] at hf
      · intro k v ms rest hf
        simp [jfuelMembers] at hf
  | succ f ih =>
      obtain ⟨ihV, ihE, ihM⟩ := ih
      refine ⟨?_, ?_, ?_⟩
      · -- values
        intro x rest hf hr
        cases x with
        | null => rfl
        | bool b => cases b <;> rfl
        | str s =>
            have hin : stringify (Json.str s) ++ rest = '"' :: (escapeStr s ++ '"' :: rest) := by
              simp [stringify]
            rw [hin]
            have hstep : parseVal (f + 1) ('"' :: (escapeStr s ++ '"' :: rest)) =
                (match parseStrAux (escapeStr s ++ '"' :: rest) with
                 | some (s2, r) => some (Json.str s2, r)
                 | none => none) := rfl
            rw [hstep, parseStrAux_escape]
        | num n =>
            by_cases hneg : n < 0
            · have hin : stringify (Json.num n) ++ rest =
                  '-' :: (natToChars n.natAbs ++ rest) := by
                simp [stringify, intToChars, hneg]
              rw [hin]
              have hstep : parseVal (f + 1) ('-' :: (natToChars n.natAbs ++ rest)) =
                  (match parseDigits (natToChars n.natAbs ++ rest) with
                   | ([], _) => none
                   | (d :: ds, r) => some (Json.num (-(Int.ofNat (digitsVal (d :: ds)))), r)) :=
                rfl
              rw [hstep]
              obtain ⟨d, ds, hpd, hval⟩ := parseDigits_natToChars n.natAbs rest hr
              rw [hpd]
              simp only [Option.some.injEq, Prod.mk.injEq, and_true]
              congr 1
              rw [hval]
              simp only [Int.ofNat_eq_coe]
              omega
            · have hin : stringify (Json.num n) ++ rest = natToChars n.natAbs ++ rest := by
                simp [stringify, intToChars, hneg]
              obtain ⟨c, t, hct⟩ := List.exists_cons_of_ne_nil (natToChars_ne_nil n.natAbs)
              have hc : c.isDigit = true :=
                natToChars_all_digit n.natAbs c (by rw [hct]; simp)
              rw [hin, hct, List.cons_append, parseVal_digit f c (t ++ rest) hc,
                ← List.cons_append, ← hct]
              obtain ⟨d, ds, hpd, hval⟩ := parseDigits_natToChars n.natAbs rest hr
              rw [hpd]
              simp only [Option.some.injEq, Prod.mk.injEq, and_true]
              congr 1
              rw [hval]
              simp only [Int.ofNat_eq_coe]
              omega
        | arr xs =>
            cases xs with
            | nil => rfl
            | cons x xs =>
                obtain ⟨c, t, hct, hs⟩ := stringifyElems_shape x xs
                have hnc := (startChar_not_close hs).1
                have hin : stringify (Json.arr (.cons x xs)) ++ rest =
                    '[' :: c :: (t ++ ']' :: rest) := by
                  simp [stringify, hct]
                rw [hin, parseVal_arrCons f c (t ++ ']' :: rest) hnc]
                have hE := ihE x xs rest (by simp [jfuel] at hf; omega)
                rw [hct] at hE
                simp only [List.cons_append] at hE
                rw [hE]
        | obj ms =>
            cases ms with
            | nil => rfl
            | cons k v ms =>
                have hshape : ∃ c t, stringifyMembers (.cons k v ms) = c :: t ∧
                    startChar c = true := by
                  cases ms <;> exact ⟨'"', _, rfl, by decide⟩
                obtain ⟨c, t, hct, hs⟩ := hshape
                have hnc := (startChar_not_close hs).2.1
                have hin : stringify (Json.obj (.cons k v ms)) ++ rest =
                    '{' :: c :: (t ++ '}' :: rest) := by
                  simp [stringify, hct]
                rw [hin, parseVal_objCons f c (t ++ '}' :: rest) hnc]
                have hM := ihM k v ms rest (by simp [jfuel] at hf; omega)
                rw [hct] at hM
                simp only [List.cons_append] at hM
                rw [hM]
      · -- array elements
        intro x xs rest hf
        cases xs with
        | nil =>
            have hx : jfuel x ≤ f := by simp [jfuelElems] at hf; omega
            have hV := ihV x (']' :: rest) hx rfl
            have hin : stringifyElems (.cons x .nil) ++ ']' :: rest =
                stringify x ++ ']' :: rest := by
              simp [stringifyElems]
            rw [hin]
            simp only [parseElems, hV]
            simp
        | cons y ys =>
            have hx : jfuel x ≤ f := by simp [jfuelElems] at hf; omega
            have htail : jfuelElems (.cons y ys) ≤ f := by
              simp [jfuelElems] at hf ⊢; omega
            have hV := ihV x (',' :: (stringifyElems (.cons y ys) ++ ']' :: rest)) hx rfl
            have hin : stringifyElems (.cons x (.cons y ys)) ++ ']' :: rest =
                stringify x ++ ',' :: (stringifyElems (.cons y ys) ++ ']' :: rest) := by
              simp [stringifyElems]
            rw [hin]
            simp only [parseElems, hV]
            simp [ihE y ys rest htail]
      · -- object members
        intro k v ms rest hf
        cases ms with
        | nil =>
            have hv : jfuel v ≤ f := by simp [jfuelMembers] at hf; omega
            have hV := ihV v ('}' :: rest) hv rfl
            have hin : stringifyMembers (.cons k v .nil) ++ '}' :: rest =
                '"' :: (escapeStr k ++ '"' :: (':' :: (stringify v ++ '}' :: rest))) := by
              simp [stringifyMembers]
            rw [hin]
            simp only [parseMembers, parseStrAux_escape]
            simp [hV]
        | cons k2 v2 ms =>
            have hv : jfuel v ≤ f := by simp [jfuelMembers] at hf; omega
            have htail : jfuelMembers (.cons k2 v2 ms) ≤ f := by
              simp [jfuelMembers] at hf ⊢; omega
            have hV := ihV v
              (',' :: (stringifyMembers (.cons k2 v2 ms) ++ '}' :: rest)) hv rfl
            have hin : stringifyMembers (.cons k v (.cons k2 v2 ms)) ++ '}' :: rest =
                '"' :: (escapeStr k ++ '"' :: (':' :: (stringify v ++
                  ',' :: (stringifyMembers (.cons k2 v2 ms) ++ '}' :: rest)))) := by
              simp [stringifyMembers]
            rw [hin]
            simp only [parseMembers, parseStrAux_escape]
            simp [hV, ihM k2 v2 ms rest htail]

theorem intToChars_ne_nil (n : Int) : intToChars n ≠ [] := by
  unfold intToChars
  split
  · simp
  · exact natToChars_ne_nil n.natAbs

theorem jfuel_le_aux : ∀ n : Nat,
    (∀ x, jfuel x ≤ n → jfuel x ≤ (stringify x).length) ∧
    (∀ x xs, jfuelElems (.cons x xs) ≤ n →
      jfuelElems (.cons x xs) ≤ (stringifyElems (.cons x xs)).length + 1) ∧
    (∀ k v ms, jfuelMembers (.cons k v ms) ≤ n →
      jfuelMembers (.cons k v ms) ≤ (stringifyMembers (.cons k v ms)).length + 1) := by
  intro n
  induction n with
  | zero =>
      refine ⟨?_, ?_, ?_⟩
      · intro x h; have := jfuel_pos x; omega
      · intro x xs h; simp [jfuelElems] at h
      · intro k v ms h; simp [jfuelMembers] at h
  | succ n ih =>
      obtain ⟨ih1, ih2, ih3⟩ := ih
      refine ⟨?_, ?_, ?_⟩
      · intro x hx
        cases x with
        | null =>
            simp only [jfuel, stringify]
            decide
        | bool b =>
            cases b <;> simp only [jfuel, stringify] <;> decide
        | num m =>
            have h1 : 1 ≤ (intToChars m).length := by
              have := intToChars_ne_nil m
              cases h : intToChars m with
              | nil => exact absurd h this
              | cons c t => simp
            simpa [jfuel, stringify] using h1
        | str s => simp [jfuel, stringify]
        | arr xs =>
            cases xs with
            | nil => simp [jfuel, stringify]
            | cons x xs =>
                have hb : jfuelElems (.cons x xs) ≤ n := by
                  simp [jfuel] at hx; omega
                have := ih2 x xs hb
                simp only [jfuel, stringify, List.length_cons, List.length_append,
                  List.length_singleton]
                omega
        | obj ms =>
            cases ms with
            | nil => simp [jfuel, stringify]
            | cons k v ms =>
                have hb : jfuelMembers (.cons k v ms) ≤ n := by
                  simp [jfuel] at hx; omega
                have := ih3 k v ms hb
                simp only [jfuel, stringify, List.length_cons, List.length_append,
                  List.length_singleton]
                omega
      · intro x xs hx
        cases xs with
        | nil =>
            have hb : jfuel x ≤ n := by simp [jfuelElems] at hx; omega
            have := ih1 x hb
            simp only [jfuelElems, stringifyElems]
            omega
        | cons y ys =>
            have hb1 : jfuel x ≤ n := by simp [jfuelElems] at hx; omega
            have hb2 : jfuelElems (.cons y ys) ≤ n := by
              simp [jfuelElems] at hx ⊢; omega
            have h1 := ih1 x hb1
            have h2 := ih2 y ys hb2
            simp only [jfuelElems, stringifyElems, List.length_append, List.length_cons] at *
            omega
      · intro k v ms hx
        cases ms with
        | nil =>
            have hb : jfuel v ≤ n := by simp [jfuelMembers] at hx; omega
            have := ih1 v hb
            simp only [jfuelMembers, stringifyMembers, List.length_append, List.length_cons]
            omega
        | cons k2 v2 ms =>
            have hb1 : jfuel v ≤ n := by simp [jfuelMembers] at hx; omega
            have hb2 : jfuelMembers (.cons k2 v2 ms) ≤ n := by
              simp [jfuelMembers] at hx ⊢; omega
            have h1 := ih1 v hb1
            have h2 := ih3 k2 v2 ms hb2
            simp only [jfuelMembers, stringifyMembers, List.length_append, List.length_cons] at *
            omega

theorem jfuel_le (x : Json) : jfuel x ≤ (stringify x).length :=
  (jfuel_le_aux (jfuel x)).1 x le_rfl

/-- `JSON.parse` inverts `JSON.stringify` on the embedded fragment. -/
theorem parseJson_stringify (x : Json) : parseJson (stringify x) = some x := by
  have h := (parse_print_aux ((stringify x).length + 1)).1 x []
    (by have := jfuel_le x; omega) rfl
  rw [List.append_nil] at h
  simp [parseJson, h]

theorem isTicks_of_isTicksJsonNl : ∀ l, isTicksJsonNl l = true → isTicks l = true := by
  intro l h
  rcases l with _ | ⟨a, _ | ⟨b, _ | ⟨c, _ | ⟨d, _ | ⟨e, _ | ⟨f2, _ | ⟨g, _ | ⟨hh, t⟩⟩⟩⟩⟩⟩⟩⟩ <;>
    simp [isTicksJsonNl] at h <;> simp [isTicks] <;> tauto

theorem isTicks_of_isTicksJson : ∀ l, isTicksJson l = true → isTicks l = true := by
  intro l h
  rcases l with _ | ⟨a, _ | ⟨b, _ | ⟨c, _ | ⟨d, _ | ⟨e, _ | ⟨f2, _ | ⟨g, t⟩⟩⟩⟩⟩⟩⟩ <;>
    simp [isTicksJson] at h <;> simp [isTicks] <;> tauto

theorem stripFences_cons {c : Char} {cs : Str} (h : isTicks (c :: cs) = false) :
    stripFences (c :: cs) = c :: stripFences cs := by
  have h1 : isTicksJsonNl (c :: cs) = false := by
    cases hj : isTicksJsonNl (c :: cs)
    · rfl
    · rw [isTicks_of_isTicksJsonNl _ hj] at h; exact absurd h (by simp)
  have h2 : isTicksJson (c :: cs) = false := by
    cases hj : isTicksJson (c :: cs)
    · rfl
    · rw [isTicks_of_isTicksJson _ hj] at h; exact absurd h (by simp)
  rw [stripFences.eq_def]
  simp [h1, h2, h]

theorem stripFences_noTicks : ∀ s, noTicks s = true →
    stripFences (s ++ '\n' :: tick :: tick :: tick :: []) = s ++ ['\n'] := by
  intro s
  induction s with
  | nil => intro _; decide
  | cons a s ih =>
      intro h
      simp only [noTicks, Bool.and_eq_true, Bool.not_eq_true'] at h
      obtain ⟨ha, hrest⟩ := h
      have hnl : decide ('\n' = tick) = false := by decide
      have hstep : isTicks (a :: (s ++ '\n' :: tick :: tick :: tick :: [])) = false := by
        cases s with
        | nil => simp [isTicks, hnl]
        | cons b s2 =>
            cases s2 with
            | nil => simp [isTicks, hnl]
            | cons c2 s3 =>
                simp only [isTicks, List.cons_append] at ha ⊢
                exact ha
      rw [List.cons_append, stripFences_cons hstep, ih hrest]
      rfl

theorem stripFences_wrapFence (s : Str) (h : noTicks s = true) :
    stripFences (wrapFence s) = s ++ ['\n'] := by
  have h1 : isTicksJsonNl (tick :: tick :: tick :: 'j' :: 's' :: 'o' :: 'n' :: '\n' ::
      (s ++ '\n' :: tick :: tick :: tick :: [])) = true := by
    simp [isTicksJsonNl]
  unfold wrapFence
  rw [stripFences.eq_def]
  simp only [h1, if_true]
  exact stripFences_noTicks s h

theorem jsTrim_append_newline (c : Char) (t : Str) (hc : isWS c = false)
    (d : Char) (hd : (c :: t).getLast? = some d) (hdw : isWS d = false) :
    jsTrim ((c :: t) ++ ['\n']) = c :: t := by
  unfold jsTrim
  rw [List.cons_append, List.dropWhile_cons, if_neg (by simp [hc])]
  have hrevhead : ((c :: t) ++ ['\n']).reverse = '\n' :: (c :: t).reverse := by
    simp
  rw [show (c :: (t ++ ['\n'])) = (c :: t) ++ ['\n'] by simp, hrevhead,
    List.dropWhile_cons, if_pos (by simp [isWS])]
  cases hrev : (c :: t).reverse with
  | nil => exact absurd hrev (by simp)
  | cons e rev2 =>
      have he : e = d := by
        have := List.head?_reverse (c :: t)
        rw [hrev, hd] at this
        simpa using this
      subst he
      rw [List.dropWhile_cons, if_neg (by simp [hdw]), ← hrev, List.reverse_reverse]

theorem digit_not_ws {c : Char} (h : c.isDigit = true) : isWS c = false := by
  have h1 : ¬ c = ' ' := by rintro rfl; exact absurd h (by decide)
  have h2 : ¬ c = '\n' := by rintro rfl; exact absurd h (by decide)
  have h3 : ¬ c = '\t' := by rintro rfl; exact absurd h (by decide)
  have h4 : ¬ c = '\r' := by rintro rfl; exact absurd h (by decide)
  have h5 : ¬ c = '\x0b' := by rintro rfl; exact absurd h (by decide)
  have h6 : ¬ c = '\x0c' := by rintro rfl; exact absurd h (by decide)
  simp [isWS, h1, h2, h3, h4, h5, h6]

theorem startChar_not_ws {c : Char} (h : startChar c = true) : isWS c = false := by
  cases hw : isWS c
  · rfl
  · exfalso
    simp only [isWS, Bool.or_eq_true, decide_eq_true_eq] at hw
    rcases hw with ((((rfl | rfl) | rfl) | rfl) | rfl) | rfl <;> revert h <;> decide

theorem stringify_last : ∀ x : Json, ∃ d, (stringify x).getLast? = some d ∧ isWS d = false := by
  intro x
  have hnat : ∀ k : Nat, ∃ d, (natToChars k).getLast? = some d ∧ isWS d = false := by
    intro k
    have hne := natToChars_ne_nil k
    have hsome : (natToChars k).getLast?.isSome := by
      rw [List.getLast?_isSome]
      exact hne
    obtain ⟨d, hd⟩ := Option.isSome_iff_exists.mp hsome
    refine ⟨d, hd, ?_⟩
    have hmem2 : d ∈ (natToChars k).getLast? := by rw [Option.mem_def]; exact hd
    obtain ⟨hne2, hdl⟩ := List.mem_getLast?_eq_getLast hmem2
    have hmem : d ∈ natToChars k := by rw [hdl]; exact List.getLast_mem hne2
    exact digit_not_ws (natToChars_all_digit k d hmem)
  cases x with
  | null => exact ⟨'l', rfl, rfl⟩
  | bool b => cases b
              · exact ⟨'e', rfl, rfl⟩
              · exact ⟨'e', rfl, rfl⟩
  | num n =>
      by_cases hneg : n < 0
      · obtain ⟨d, hd, hw⟩ := hnat n.natAbs
        refine ⟨d, ?_, hw⟩
        have : stringify (Json.num n) = ['-'] ++ natToChars n.natAbs := by
          simp [stringify, intToChars, hneg]
        rw [this, List.getLast?_append_of_ne_nil ['-'] (natToChars_ne_nil n.natAbs)]
        exact hd
      · obtain ⟨d, hd, hw⟩ := hnat n.natAbs
        refine ⟨d, ?_, hw⟩
        have : stringify (Json.num n) = natToChars n.natAbs := by
          simp [stringify, intToChars, hneg]
        rw [this]
        exact hd
  | str s =>
      refine ⟨'"', ?_, rfl⟩
      have : stringify (Json.str s) = ('"' :: escapeStr s) ++ ['"'] := by
        simp [stringify]
      rw [this, List.getLast?_concat]
  | arr xs =>
      cases xs with
      | nil => exact ⟨']', rfl, rfl⟩
      | cons x xs =>
          refine ⟨']', ?_, rfl⟩
          have : stringify (Json.arr (.cons x xs)) =
              ('[' :: stringifyElems (.cons x xs)) ++ [']'] := by
            simp [stringify]
          rw [this, List.getLast?_concat]
  | obj ms =>
      cases ms with
      | nil => exact ⟨'}', rfl, rfl⟩
      | cons k v ms =>
          refine ⟨'}', ?_, rfl⟩
          have : stringify (Json.obj (.cons k v ms)) =
              ('{' :: stringifyMembers (.cons k v ms)) ++ ['}'] := by
            simp [stringify]
          rw [this, List.getLast?_concat]

/-- Fence-wrapped serializations round-trip through `safeJSONParse`
whenever the serialized text contains no triple-backtick run. -/
theorem safeJSONParse_stringify_wrapFence (x fb : Json) (h : noTicks (stringify x) = true) :
    safeJSONParse (wrapFence (stringify x)) fb = x := by
  unfold safeJSONParse
  rw [stripFences_wrapFence _ h]
  obtain ⟨c, t, hct, hs⟩ := stringify_shape x
  obtain ⟨d, hd, hdw⟩ := stringify_last x
  rw [hct] at hd ⊢
  rw [jsTrim_append_newline c t (startChar_not_ws hs) d hd hdw, ← hct, parseJson_stringify]

/-! ## Claim theorems -/
/-- C1 (amended): every case document returned (not thrown) by
`generateCase` has a truthy `title` and a truthy `drugRelatedProblems`
field which, when it is an array, is non-empty; the exact-4 /
exactly-one-correct cardinality is requested from the model through
the prompt and response schema but is not enforced by the code's
validation. -/
theorem claim_C1 (r : UpstreamResult) (j : Json) (h : generateCase r = Except.ok j) :
    fieldTruthy j titleKey = true ∧ fieldTruthy j drpKey = true ∧
      fieldLenZero j drpKey = false ∧ drpField j ≠ some JsonList.nil := by
  cases r with
  | failure => exact absurd h (by simp [generateCase])
  | success t =>
      cases hp : parseJson (jsTrim t) with
      | none =>
          simp only [generateCase, hp] at h
          exact Except.noConfusion h
      | some d =>
          simp only [generateCase, hp] at h
          by_cases hcond : (!(fieldTruthy d titleKey) || !(fieldTruthy d drpKey) ||
              fieldLenZero d drpKey) = true
          · rw [if_pos hcond] at h
            exact absurd h (by simp)
          · rw [if_neg hcond] at h
            have hj : d = j := by
              have := h
              simp only [Except.ok.injEq] at this
              exact this
            subst hj
            simp only [Bool.or_eq_true, Bool.not_eq_true', not_or, Bool.not_eq_false,
              Bool.not_eq_true] at hcond
            obtain ⟨⟨h1, h2⟩, h3⟩ := hcond
            refine ⟨h1, h2, h3, ?_⟩
            intro hdf
            unfold drpField at hdf
            unfold fieldLenZero at h3
            cases hg : jGet d drpKey with
            | none => rw [hg] at hdf; exact Option.noConfusion hdf
            | some v =>
                rw [hg] at hdf h3
                cases v with
                | arr l =>
                    cases l with
                    | nil => simp at h3
                    | cons a as => simp at hdf
                | null => exact Option.noConfusion hdf
                | bool b => exact Option.noConfusion hdf
                | num n => exact Option.noConfusion hdf
                | str s => exact Option.noConfusion hdf
                | obj ms => exact Option.noConfusion hdf

/-- C1 witness: a concrete response passing validation, evaluated. -/
theorem claim_C1_witness :
    fieldTruthy (Json.obj (.cons titleKey (Json.str (toChars ("T")))
        (.cons drpKey (Json.arr (.cons (Json.obj (.cons (toChars ("problem"))
          (Json.str (toChars ("p"))) (.cons (toChars ("isCorrect")) (Json.bool true) .nil)))
          .nil)) .nil))) titleKey = true ∧
    fieldTruthy (Json.obj (.cons titleKey (Json.str (toChars ("T")))
        (.cons drpKey (Json.arr (.cons (Json.obj (.cons (toChars ("problem"))
          (Json.str (toChars ("p"))) (.cons (toChars ("isCorrect")) (Json.bool true) .nil)))
          .nil)) .nil))) drpKey = true ∧
    fieldLenZero (Json.obj (.cons titleKey (Json.str (toChars ("T")))
        (.cons drpKey (Json.arr (.cons (Json.obj (.cons (toChars ("problem"))
          (Json.str (toChars ("p"))) (.cons (toChars ("isCorrect")) (Json.bool true) .nil)))
          .nil)) .nil))) drpKey = false ∧
    drpField (Json.obj (.cons titleKey (Json.str (toChars ("T")))
        (.cons drpKey (Json.arr (.cons (Json.obj (.cons (toChars ("problem"))
          (Json.str (toChars ("p"))) (.cons (toChars ("isCorrect")) (Json.bool true) .nil)))
          .nil)) .nil))) ≠ some JsonList.nil :=
  claim_C1 (.success (toChars
    ("\x7b\"title\":\"T\",\"drugRelatedProblems\":[\x7b\"problem\":\"p\",\"isCorrect\":true\x7d]\x7d")))
    (Json.obj (.cons titleKey (Json.str (toChars ("T")))
      (.cons drpKey (Json.arr (.cons (Json.obj (.cons (toChars ("problem"))
        (Json.str (toChars ("p"))) (.cons (toChars ("isCorrect")) (Json.bool true) .nil)))
        .nil)) .nil)))
    (by decide)

/-- C1 counterexample: a schema-violating model response — one
drug-related problem, none marked correct — is returned as a case, so
the claimed length-4 / exactly-one-correct invariant fails on the
code. -/
theorem claim_C1_counterexample :
    (((okOf (generateCase (.success (toChars
        ("\x7b\"title\":\"T\",\"drugRelatedProblems\":[\x7b\"problem\":\"p\",\"isCorrect\":false\x7d]\x7d"))))).bind
        drpField).map jlLength = some 1) ∧
    (((okOf (generateCase (.success (toChars
        ("\x7b\"title\":\"T\",\"drugRelatedProblems\":[\x7b\"problem\":\"p\",\"isCorrect\":false\x7d]\x7d"))))).bind
        drpField).map countCorrect = some 0) := by
  decide

/-- C2 (amended): `generateCase` fails exactly when the upstream call
errors, the response text fails to parse as JSON, the parsed
document's `title` is missing or falsy, or its `drugRelatedProblems`
is missing, falsy, or of length zero; nothing else is validated, so
the returned case can be partially populated. -/
theorem claim_C2 :
    generateCase UpstreamResult.failure = Except.error GenError.upstream ∧
    ∀ t, generateCase (.success t) = Except.error GenError.invalidCase ↔
      (parseJson (jsTrim t) = none ∨
       ∃ j, parseJson (jsTrim t) = some j ∧
         (fieldTruthy j titleKey = false ∨ fieldTruthy j drpKey = false ∨
          fieldLenZero j drpKey = true)) := by
  refine ⟨rfl, ?_⟩
  intro t
  cases hp : parseJson (jsTrim t) with
  | none =>
      simp only [generateCase, hp]
      exact ⟨fun _ => Or.inl trivial, fun _ => trivial⟩
  | some d =>
      simp only [generateCase, hp]
      by_cases hcond : (!(fieldTruthy d titleKey) || !(fieldTruthy d drpKey) ||
          fieldLenZero d drpKey) = true
      · rw [if_pos hcond]
        constructor
        · intro _
          refine Or.inr ⟨d, rfl, ?_⟩
          have hc2 := hcond
          simp only [Bool.or_eq_true, Bool.not_eq_true'] at hc2
          tauto
        · intro _; rfl
      · rw [if_neg hcond]
        constructor
        · intro hcontra
          exact Except.noConfusion hcontra
        · rintro (hnone | ⟨j, hj, hbad⟩)
          · exact Option.noConfusion hnone
          · have hdj : d = j := Option.some.inj hj
            subst hdj
            exfalso
            apply hcond
            simp only [Bool.or_eq_true, Bool.not_eq_true']
            tauto

/-- C2 counterexample: a parseable response containing only a title
and one drug-related problem passes validation and is returned, yet
lacks every other required `PharmacyCase` field — a partially
populated case. -/
theorem claim_C2_counterexample :
    ((okOf (generateCase (.success (toChars
      ("\x7b\"title\":\"T\",\"drugRelatedProblems\":[\x7b\"problem\":\"p\",\"isCorrect\":true\x7d]\x7d"))))).map
        fullyStructured) = some false := by
  decide

/-- C3 (amended): when the debrief response fails to parse,
`generateDebrief` raises the invalid-debrief-format error instead of
returning an empty-content fallback object; `handleGenerateDebrief`
catches it and records a visible debrief error message while leaving
the stored debrief data unchanged, so no parse exception reaches the
rendering layer. -/
theorem claim_C3 (t : Str) (h : parseJson (jsTrim t) = none) (st : DebriefState) :
    generateDebrief (.success t) = Except.error DebriefErr.invalidFormat ∧
    handleGenerateDebrief st (.error .invalidFormat) =
      { debriefData := st.debriefData,
        debriefError := some (debriefErrMessage .invalidFormat),
        isGeneratingDebrief := false } := by
  constructor
  · simp only [generateDebrief, h]
  · rfl

/-- C3 witness: the amended behavior at a concrete unparseable
response and a concrete pre-call state. -/
theorem claim_C3_witness :
    parseJson (jsTrim (toChars ("not json"))) = none ∧
    (generateDebrief (.success (toChars ("not json"))) =
        Except.error DebriefErr.invalidFormat ∧
      handleGenerateDebrief ⟨none, none, false⟩ (.error .invalidFormat) =
        { debriefData := none,
          debriefError := some (debriefErrMessage .invalidFormat),
          isGeneratingDebrief := false }) :=
  ⟨by decide, claim_C3 (toChars ("not json")) (by decide) ⟨none, none, false⟩⟩

/-- C3 counterexample: on an unparseable debrief response the live
service raises an error; it does not return the safe empty-content
fallback object the claim describes. -/
theorem claim_C3_counterexample :
    generateDebrief (.success (toChars ("not json"))) =
      Except.error DebriefErr.invalidFormat ∧
    generateDebrief (.success (toChars ("not json"))) ≠ Except.ok debriefFallback := by
  decide

/-- C4 (amended): `safeJSONParse` round-trips for every value whose
JSON serialization contains no triple-backtick run: parsing the
serialization wrapped in triple-backtick fences with a "json" tag
recovers the value. (A triple backtick inside a string literal breaks
the round trip, because the global replace also strips backtick runs
inside the payload.) -/
theorem claim_C4 (x fb : Json) (h : noTicks (stringify x) = true) :
    safeJSONParse (wrapFence (stringify x)) fb = x :=
  safeJSONParse_stringify_wrapFence x fb h

/-- C4 witness: the round trip at a concrete object value. -/
theorem claim_C4_witness :
    noTicks (stringify (Json.obj (.cons (toChars ("a")) (Json.num (-12))
        (.cons (toChars ("b")) (Json.arr (.cons (Json.str (toChars ("x y"))) .nil))
          .nil)))) = true ∧
    safeJSONParse (wrapFence (stringify (Json.obj (.cons (toChars ("a")) (Json.num (-12))
        (.cons (toChars ("b")) (Json.arr (.cons (Json.str (toChars ("x y"))) .nil))
          .nil))))) Json.null =
      Json.obj (.cons (toChars ("a")) (Json.num (-12))
        (.cons (toChars ("b")) (Json.arr (.cons (Json.str (toChars ("x y"))) .nil)) .nil)) :=
  ⟨by decide,
   claim_C4 (Json.obj (.cons (toChars ("a")) (Json.num (-12))
     (.cons (toChars ("b")) (Json.arr (.cons (Json.str (toChars ("x y"))) .nil)) .nil)))
     Json.null (by decide)⟩

/-- C4 counterexample: for the string value containing three
backticks, the fence-stripping regex deletes the backticks inside the
serialized string literal, so parsing recovers the empty string
instead of the original value — the round trip fails. -/
theorem claim_C4_counterexample :
    safeJSONParse (wrapFence (stringify (Json.str (tick :: tick :: tick :: []))))
        Json.null = Json.str [] ∧
    safeJSONParse (wrapFence (stringify (Json.str (tick :: tick :: tick :: []))))
        Json.null ≠ Json.str (tick :: tick :: tick :: []) := by
  decide

/-- C5: lab-result lookup is total: for every test name in the fixed
investigation catalog and every lab string, `parseComplexLabResult`
returns a result (the embedding is a total function), and when the
`name\s*:\s*` pattern does not occur in the string the result is the
simple not-available sentinel. -/
theorem claim_C5 (name : Str) (hname : name ∈ allInvestigationNames) (s : Str)
    (habs : findMatch name s = none) :
    parseComplexLabResult name s = LabResult.simple notAvailableMsg := by
  unfold parseComplexLabResult
  rw [habs]
  simp

/-- C5 witness: a catalog test absent from a concrete lab string. -/
theorem claim_C5_witness :
    toChars ("CBC") ∈ allInvestigationNames ∧
    findMatch (toChars ("CBC")) (toChars ("TSH: 2.0 mIU/L")) = none ∧
    parseComplexLabResult (toChars ("CBC")) (toChars ("TSH: 2.0 mIU/L")) =
      LabResult.simple notAvailableMsg :=
  ⟨by decide, by decide,
   claim_C5 (toChars ("CBC")) (by decide) (toChars ("TSH: 2.0 mIU/L")) (by decide)⟩

/-- C6: the hint budget never goes negative: requesting a hint at
count 0 is a no-op (no request issued, no decrement, nothing
appended); a failed request leaves the budget unchanged; and from a
non-negative budget the budget stays non-negative. -/
theorem claim_C6 (hasCase : Bool) (isGeneratingHint : Bool) (outcome : Option Str) (c : Int) :
    handleRequestHint hasCase 0 isGeneratingHint outcome =
      { requestIssued := false, newHintCount := 0, appendedMessage := none } ∧
    (handleRequestHint hasCase c isGeneratingHint none).newHintCount = c ∧
    (0 ≤ c → 0 ≤ (handleRequestHint hasCase c isGeneratingHint outcome).newHintCount) := by
  refine ⟨?_, ?_, ?_⟩
  · unfold handleRequestHint
    rw [if_pos]
    simp
  · unfold handleRequestHint
    split
    · rfl
    · rfl
  · intro hc
    unfold handleRequestHint
    split
    · exact hc
    · rename_i hcond
      simp only [Bool.or_eq_true, Bool.not_eq_true', not_or, decide_eq_true_eq] at hcond
      cases outcome with
      | some hint => simp; omega
      | none => simpa using hc

/-- C6 witness: the three parts at concrete inputs. -/
theorem claim_C6_witness :
    handleRequestHint true 0 false (some (toChars ("try asking about adherence"))) =
      { requestIssued := false, newHintCount := 0, appendedMessage := none } ∧
    (handleRequestHint true 5 false none).newHintCount = 5 ∧
    0 ≤ (handleRequestHint true 5 false
      (some (toChars ("try asking about adherence")))).newHintCount := by
  obtain ⟨h1, h2, h3⟩ :=
    claim_C6 true false (some (toChars ("try asking about adherence"))) 5
  exact ⟨h1, h2, h3 (by decide)⟩

/-- C7: the specialty picker always yields a member of the four-item
enumeration: an exact (trimmed) match is returned as-is, anything else
deterministically falls back to "Community Pharmacy". -/
theorem claim_C7 (resp : Str) :
    pickPharmacyAreaForCase resp ∈ validSpecialties ∧
    (jsTrim resp ∈ validSpecialties → pickPharmacyAreaForCase resp = jsTrim resp) ∧
    (jsTrim resp ∉ validSpecialties →
      pickPharmacyAreaForCase resp = toChars ("Community Pharmacy")) := by
  unfold pickPharmacyAreaForCase
  by_cases hmem : jsTrim resp ∈ validSpecialties
  · rw [if_pos hmem]
    exact ⟨hmem, fun _ => rfl, fun hn => absurd hmem hn⟩
  · rw [if_neg hmem]
    exact ⟨by decide, fun hm => absurd hm hmem, fun _ => rfl⟩

/-- C7 witness: an exact match (with surrounding whitespace) and a
non-matching response, both evaluated. -/
theorem claim_C7_witness :
    pickPharmacyAreaForCase (toChars (" Hospital Pharmacy\n")) ∈ validSpecialties ∧
    pickPharmacyAreaForCase (toChars (" Hospital Pharmacy\n")) =
      jsTrim (toChars (" Hospital Pharmacy\n")) := by
  obtain ⟨h1, h2, _⟩ := claim_C7 (toChars (" Hospital Pharmacy\n"))
  exact ⟨h1, h2 (by decide)⟩

theorem find?_of_filter_singleton {α : Type} (p : α → Bool) :
    ∀ (l : List α) (a : α), l.filter p = [a] → l.find? p = some a := by
  intro l
  induction l with
  | nil => intro a h; simp at h
  | cons x xs ih =>
      intro a h
      by_cases hx : p x = true
      · rw [List.filter_cons_of_pos hx] at h
        have hxa : x = a := by
          have := congrArg List.head? h
          simpa using this
        rw [List.find?_cons_of_pos _ hx, hxa]
      · rw [List.filter_cons_of_neg (by simpa using hx)] at h
        rw [List.find?_cons_of_neg _ hx]
        exact ih a h

/-- C8: for a case whose drug-related problems contain exactly one
entry flagged correct, submission is judged correct precisely when the
selected string equals that entry's problem text; any other selected
string yields `false`. -/
theorem claim_C8 (drps : List DRP) (sel : Str) (time : Nat) (d : DRP)
    (h : drps.filter (fun x => x.isCorrect) = [d]) :
    (handleFinishCase drps sel time).problemCorrect = true ↔ sel = d.problem := by
  have hfind : drps.find? (fun x => x.isCorrect) = some d :=
    find?_of_filter_singleton _ drps d h
  unfold handleFinishCase correctProblem
  rw [hfind]
  simp

/-- C8 witness: a four-entry problem list with one correct entry;
selecting the correct text is judged correct. -/
theorem claim_C8_witness :
    [DRP.mk (toChars ("A")) false, DRP.mk (toChars ("B")) true,
     DRP.mk (toChars ("C")) false, DRP.mk (toChars ("D")) false].filter
        (fun x => x.isCorrect) = [DRP.mk (toChars ("B")) true] ∧
    ((handleFinishCase
        [DRP.mk (toChars ("A")) false, DRP.mk (toChars ("B")) true,
         DRP.mk (toChars ("C")) false, DRP.mk (toChars ("D")) false]
        (toChars ("B")) 42).problemCorrect = true ↔
      toChars ("B") = (DRP.mk (toChars ("B")) true).problem) :=
  ⟨by decide,
   claim_C8 [DRP.mk (toChars ("A")) false, DRP.mk (toChars ("B")) true,
     DRP.mk (toChars ("C")) false, DRP.mk (toChars ("D")) false]
     (toChars ("B")) 42 (DRP.mk (toChars ("B")) true) (by decide)⟩

theorem mem_sectionTexts_appendToLast :
    ∀ (sections : List ExamSection) (txt : Str), sections ≠ [] →
      txt ∈ sectionTexts (appendToLast sections txt) := by
  intro sections
  induction sections with
  | nil => intro txt h; exact absurd rfl h
  | cons s rest ih =>
      intro txt _
      cases rest with
      | nil => simp [appendToLast, sectionTexts]
      | cons s2 rest2 =>
          have := ih txt (by simp)
          simp only [appendToLast, sectionTexts, List.map_cons, List.flatten_cons,
            List.mem_append]
          right
          simpa [sectionTexts] using this

/-- C9: a segment whose first line lacks a colon is never dropped: it
is appended as an unlabeled continuation of the most recent previously
parsed section, or starts a new section titled "Examination Findings"
when no section exists yet; in both cases the segment's trimmed text
appears in the parsed output. -/
theorem claim_C9 (sections : List ExamSection) (part : Str)
    (hnc : ':' ∉ (splitOn '\n' (jsTrim part)).headD []) :
    (sections = [] → examStep sections part =
      [{ title := genericExamTitle, content := [jsTrim part] }]) ∧
    (sections ≠ [] → examStep sections part = appendToLast sections (jsTrim part)) ∧
    jsTrim part ∈ sectionTexts (examStep sections part) := by
  have hstep : examStep sections part =
      (match sections with
       | [] => [{ title := genericExamTitle, content := [jsTrim part] }]
       | s :: rest => appendToLast (s :: rest) (jsTrim part)) := by
    unfold examStep
    rw [if_neg hnc]
  refine ⟨?_, ?_, ?_⟩
  · intro hs; subst hs; rw [hstep]
  · intro hs
    cases sections with
    | nil => exact absurd rfl hs
    | cons s rest => rw [hstep]
  · rw [hstep]
    cases sections with
    | nil => simp [sectionTexts]
    | cons s rest => exact mem_sectionTexts_appendToLast (s :: rest) _ (by simp)

/-- C9 witness: a colon-free segment appended to an existing section,
evaluated concretely. -/
theorem claim_C9_witness :
    examStep [ExamSection.mk (toChars ("Vitals")) [toChars ("BP 120/80")]]
        (toChars ("No acute distress")) =
      appendToLast [ExamSection.mk (toChars ("Vitals")) [toChars ("BP 120/80")]]
        (jsTrim (toChars ("No acute distress"))) ∧
    jsTrim (toChars ("No acute distress")) ∈
      sectionTexts (examStep [ExamSection.mk (toChars ("Vitals")) [toChars ("BP 120/80")]]
        (toChars ("No acute distress"))) := by
  obtain ⟨_, h2, h3⟩ :=
    claim_C9 [ExamSection.mk (toChars ("Vitals")) [toChars ("BP 120/80")]]
      (toChars ("No acute distress")) (by decide)
  exact ⟨h2 (by simp), h3⟩

theorem markNotificationAsRead_nonneg (hasSession : Bool) (st : NotifState) (nid : Int)
    (ok : Bool) (h : 0 ≤ st.unreadCount) :
    0 ≤ (markNotificationAsRead hasSession st nid ok).unreadCount := by
  unfold markNotificationAsRead
  split
  · exact h
  · split
    · exact le_max_left 0 _
    · exact h

theorem foldl_markNotificationStep_nonneg :
    ∀ (calls : List (Bool × Int × Bool)) (st : NotifState), 0 ≤ st.unreadCount →
      0 ≤ (calls.foldl markNotificationStep st).unreadCount := by
  intro calls
  induction calls with
  | nil => intro st h; exact h
  | cons c cs ih =>
      intro st h
      rw [List.foldl_cons]
      exact ih _ (markNotificationAsRead_nonneg c.1 st c.2.1 c.2.2 h)

/-- C10: the unread-notification counter never becomes negative —
one call preserves non-negativity (the decrement goes through
`max 0 (n - 1)`), any sequence of calls preserves it, and on
remote-write failure the whole state is restored to its pre-call
snapshot. -/
theorem claim_C10 (hasSession : Bool) (st : NotifState) (nid : Int) (ok : Bool)
    (calls : List (Bool × Int × Bool)) :
    (0 ≤ st.unreadCount → 0 ≤ (markNotificationAsRead hasSession st nid ok).unreadCount) ∧
    (ok = false → markNotificationAsRead hasSession st nid ok = st) ∧
    (0 ≤ st.unreadCount → 0 ≤ (calls.foldl markNotificationStep st).unreadCount) := by
  refine ⟨markNotificationAsRead_nonneg hasSession st nid ok, ?_,
    foldl_markNotificationStep_nonneg calls st⟩
  intro hok
  subst hok
  unfold markNotificationAsRead
  split
  · rfl
  · rfl

/-- C10 witness: a concrete state, a failed call restoring the
snapshot, and a call sequence (including calls at counter 0 and on
already-read rows) keeping the counter non-negative. -/
theorem claim_C10_witness :
    (0 ≤ (markNotificationAsRead true
      ⟨[⟨1, toChars ("t"), toChars ("m"), false⟩], 1⟩ 1 false).unreadCount) ∧
    (markNotificationAsRead true
      ⟨[⟨1, toChars ("t"), toChars ("m"), false⟩], 1⟩ 1 false =
        ⟨[⟨1, toChars ("t"), toChars ("m"), false⟩], 1⟩) ∧
    (0 ≤ ([(true, (1 : Int), true), (true, 1, true), (true, 2, false)].foldl
      markNotificationStep ⟨[⟨1, toChars ("t"), toChars ("m"), false⟩], 1⟩).unreadCount) := by
  obtain ⟨h1, h2, h3⟩ := claim_C10 true
    ⟨[⟨1, toChars ("t"), toChars ("m"), false⟩], 1⟩ 1 false
    [(true, (1 : Int), true), (true, 1, true), (true, 2, false)]
  exact ⟨h1 (by decide), h2 rfl, h3 (by decide)⟩

end Medanna

